import Mathlib

/-
Verification of the model-specification parsing and path-diagram layout logic
of `app.py` (`create_path_diagram` together with the default `model_desc`
text).  Python strings are modelled as `List Char`; the Python operations
`str.split(sep)` (single-character separator, keeping empty parts),
`str.strip()` and the containment test `c in s` are modelled by the
structurally recursive functions `pySplit`, `pyStrip` and `pyContains`.
Python's `list(set(...))` yields the distinct elements in an order chosen by
the runtime (string hashing is randomized per process), so the canonical
deduplicated list `nodeList` is fixed here and order-sensitive statements
quantify over an arbitrary permutation `order` of it.
-/

namespace SemApp

/-- A Python string, modelled as its list of characters. -/
abbrev PyStr := List Char

/-- Embed a Lean string literal into the model representation. -/
def pyStr (s : String) : PyStr := s.toList

/-- Helper for `pySplit`: `acc` holds the characters of the current chunk in
reverse.  Mirrors Python `str.split(sep)`, which splits at every occurrence
of the separator and keeps empty chunks. -/
def pySplitAux (sep : Char) : List Char → List Char → List PyStr
  | [], acc => [acc.reverse]
  | c :: rest, acc =>
    if c = sep then acc.reverse :: pySplitAux sep rest []
    else pySplitAux sep rest (c :: acc)

/-- Python `s.split(sep)` for a single-character separator. -/
def pySplit (sep : Char) (s : PyStr) : List PyStr := pySplitAux sep s []

/-- The whitespace characters removed by Python `str.strip()` (the ASCII
ones; no input of the program contains other Unicode whitespace). -/
def pyIsSpace (c : Char) : Bool :=
  c == ' ' || c == '\t' || c == '\n' || c == '\r' || c == '\x0b' || c == '\x0c'

/-- Python `s.strip()`: drop whitespace from both ends. -/
def pyStrip (s : PyStr) : PyStr :=
  ((s.dropWhile pyIsSpace).reverse.dropWhile pyIsSpace).reverse

/-- Python `c in s` for a character `c`. -/
def pyContains (c : Char) (s : PyStr) : Bool := s.any (fun a => a == c)

/-- Source: `model_desc.split('\n')`. -/
def modelLines (text : PyStr) : List PyStr := pySplit '\n' text

/-- Source: the guard `if '~' in path`. -/
def isRelationLine (path : PyStr) : Bool := pyContains '~' path

/-- Source: `path.split('~')[0].strip()`.  Under the `'~' in path` guard the
split always has at least two parts, so the `getD` default is never used. -/
def partL (path : PyStr) : PyStr := pyStrip ((pySplit '~' path).getD 0 [])

/-- Source: `path.split('~')[1].strip()` (same remark as for `partL`). -/
def partR (path : PyStr) : PyStr := pyStrip ((pySplit '~' path).getD 1 [])

/-- The two-element inner list `[path.split('~')[0].strip(),
path.split('~')[1].strip()]` of the node comprehension. -/
def lineNodes (path : PyStr) : List PyStr := [partL path, partR path]

/-- The flattened node comprehension, before `set` deduplication:
`[item for sublist in [...] for item in sublist]`. -/
def nodeItems (text : PyStr) : List PyStr :=
  (((modelLines text).filter isRelationLine).map lineNodes).flatten

/-- Source: `nodes = list(set(...))`.  `List.dedup` fixes one canonical
order of the distinct elements; the Python set's iteration order is an
arbitrary permutation of it, which order-sensitive theorems take as an
explicit parameter. -/
def nodeList (text : PyStr) : List PyStr := (nodeItems text).dedup

/-- The entries written by `for i, node in enumerate(nodes):
pos[node] = (i * 2, i % 2 * 2)`, starting at index `i`. -/
def posEntriesFrom (i : Nat) : List PyStr → List (PyStr × (Nat × Nat))
  | [] => []
  | n :: rest => (n, (i * 2, i % 2 * 2)) :: posEntriesFrom (i + 1) rest

/-- The `pos` dictionary built from the node list. -/
def posEntries (order : List PyStr) : List (PyStr × (Nat × Nat)) :=
  posEntriesFrom 0 order

/-- Dictionary access `pos[name]`.  First-match lookup; since the node list
holds distinct names, this agrees with Python's last-write dict semantics. -/
def posLookup : List (PyStr × (Nat × Nat)) → PyStr → Option (Nat × Nat)
  | [], _ => none
  | (k, v) :: rest, n => if n = k then some v else posLookup rest n

/-- The two ways the edge loop of `create_path_diagram` can raise:
`start, end = path.split('~')` raises ValueError when the split does not
have exactly two parts, and `pos[...]` raises KeyError on a missing key. -/
inductive PyErr where
  | valueError
  | keyError
deriving DecidableEq, Repr

/-- One iteration of the edge loop, for a single line: skipped
(`Except.ok none`), a pair of positions for the two stripped endpoints
(`Except.ok (some (ps, pe))`), or an exception. -/
def lineEdge (order : List PyStr) (path : PyStr) :
    Except PyErr (Option ((Nat × Nat) × (Nat × Nat))) :=
  if isRelationLine path then
    match pySplit '~' path with
    | [s, e] =>
      match posLookup (posEntries order) (pyStrip s),
            posLookup (posEntries order) (pyStrip e) with
      | some ps, some pe => .ok (some (ps, pe))
      | _, _ => .error .keyError
    | _ => .error .valueError
  else .ok none

/-- The edge loop: accumulates `edge_x` and `edge_y`, each edge contributing
`[pos[start][i], pos[end][i], None]` (the `None` break marker between
segments), stopping at the first raised exception. -/
def buildEdgesAux (order : List PyStr) :
    List PyStr → List (Option Nat) → List (Option Nat) →
      Except PyErr (List (Option Nat) × List (Option Nat))
  | [], ex, ey => .ok (ex, ey)
  | path :: rest, ex, ey =>
    match lineEdge order path with
    | .error err => .error err
    | .ok none => buildEdgesAux order rest ex ey
    | .ok (some (ps, pe)) =>
      buildEdgesAux order rest (ex ++ [some ps.1, some pe.1, none])
        (ey ++ [some ps.2, some pe.2, none])

/-- The full edge loop of `create_path_diagram` over the lines of `text`. -/
def buildEdges (order : List PyStr) (text : PyStr) :
    Except PyErr (List (Option Nat) × List (Option Nat)) :=
  buildEdgesAux order (modelLines text) [] []

/-- Abstract view of the edge loop: the list of `(start, end)` name pairs in
source-line order, or `none` when some relation line does not split into
exactly two parts. -/
def edgePairsAux : List PyStr → Option (List (PyStr × PyStr))
  | [] => some []
  | path :: rest =>
    if isRelationLine path then
      match pySplit '~' path with
      | [s, e] => (edgePairsAux rest).map (fun ps => (pyStrip s, pyStrip e) :: ps)
      | _ => none
    else edgePairsAux rest

/-- The edge list of `text` as name pairs, in source-line order. -/
def edgePairs (text : PyStr) : Option (List (PyStr × PyStr)) :=
  edgePairsAux (modelLines text)

/-- The `(left, right)` pair a single relation line contributes to the edge
list. -/
def linePairRaw (path : PyStr) : PyStr × PyStr := (partL path, partR path)

/-- Look up every name of `ns` in the position dictionary (the node-trace
comprehensions `[pos[node][0] for node in nodes]` and the `y` analogue). -/
def lookupAll (entries : List (PyStr × (Nat × Nat))) :
    List PyStr → Option (List (Nat × Nat))
  | [] => some []
  | n :: rest =>
    match posLookup entries n, lookupAll entries rest with
    | some p, some ps => some (p :: ps)
    | _, _ => none

/-- The data of the plotly figure produced by `create_path_diagram`: the
node names, their coordinates, and the edge coordinate lists with `none` as
the break marker between consecutive segments. -/
structure Diagram where
  nodes : List PyStr
  node_x : List Nat
  node_y : List Nat
  edge_x : List (Option Nat)
  edge_y : List (Option Nat)
deriving DecidableEq, Repr

/-- Stand-in for the fitted `semopy` model object that `create_path_diagram`
receives as its argument and never reads. -/
structure SemModel where
  fitted : Bool
deriving DecidableEq, Repr

/-- The function `create_path_diagram(model)`.  It ignores `model` and reads
the module-level `model_desc`, passed here as `text`; `order` is the
iteration order of the Python set of node names (a permutation of
`nodeList text`). -/
def create_path_diagram (model : SemModel) (order : List PyStr) (text : PyStr) :
    Except PyErr Diagram :=
  match buildEdges order text with
  | .error err => .error err
  | .ok (ex, ey) =>
    match lookupAll (posEntries order) order with
    | some ps => .ok ⟨order, ps.map Prod.fst, ps.map Prod.snd, ex, ey⟩
    | none => .error .keyError

/-- The default model specification string of `app.py`, byte for byte. -/
def model_desc : PyStr := pyStr
  "\n    EiB =~ DIDS_6 + DIDS_7 + DIDS_8 + DIDS_9 + DIDS_10\n    RE  =~ DIDS_11 + DIDS_12 + DIDS_13 + DIDS_14 + DIDS_15\n    IwC =~ DIDS_16 + DIDS_17 + DIDS_18 + DIDS_19 + DIDS_20\n    EiD =~ DIDS_21 + DIDS_22 + DIDS_23 + DIDS_24 + DIDS_25\n    CM  =~ DIDS_1 + DIDS_2 + DIDS_3 + DIDS_4 + DIDS_5\n    Eud =~ HEMA_2 + HEMA_3 + HEMA_5 + HEMA_8 + HEMA_10\n    # Structural Model\n    Eud ~ EiB + RE + IwC + EiD + CM\n"

theorem eq_false_of_not_true {b : Bool} (h : ¬(b = true)) : b = false := by
  cases b
  · rfl
  · exact absurd rfl h

theorem exists_pair_of_length_two {α : Type} {l : List α} (h : l.length = 2) :
    ∃ a b, l = [a, b] := by
  cases l with
  | nil => simp at h
  | cons a t =>
    cases t with
    | nil => simp at h
    | cons b t2 =>
      cases t2 with
      | nil => exact ⟨a, b, rfl⟩
      | cons c t3 =>
        rw [List.length_cons, List.length_cons, List.length_cons] at h
        omega

theorem lineNodes_of_split {path s e : PyStr} (h : pySplit '~' path = [s, e]) :
    lineNodes path = [pyStrip s, pyStrip e] := by
  simp [lineNodes, partL, partR, h]

theorem mem_nodeItems_of_mem_lineNodes {text line x : PyStr}
    (hmem : line ∈ modelLines text) (hrel : isRelationLine line = true)
    (hx : x ∈ lineNodes line) : x ∈ nodeItems text :=
  List.mem_flatten_of_mem
    (List.mem_map_of_mem lineNodes (List.mem_filter.mpr ⟨hmem, hrel⟩)) hx

theorem mem_nodeList {text x : PyStr} : x ∈ nodeList text ↔ x ∈ nodeItems text :=
  List.mem_dedup

theorem posLookup_isSome_of_mem (n : PyStr) :
    ∀ (ns : List PyStr) (k : Nat), n ∈ ns →
      (posLookup (posEntriesFrom k ns) n).isSome = true := by
  intro ns
  induction ns with
  | nil => intro k h; cases h
  | cons m rest ih =>
    intro k h
    by_cases hn : n = m
    · simp [posEntriesFrom, posLookup, hn]
    · rcases List.mem_cons.mp h with h1 | h2
      · exact absurd h1 hn
      · simpa [posEntriesFrom, posLookup, hn] using ih (k + 1) h2

theorem posLookup_posEntriesFrom (n : PyStr) :
    ∀ (ns : List PyStr) (k i : Nat), ns.Nodup → ns[i]? = some n →
      posLookup (posEntriesFrom k ns) n = some ((k + i) * 2, (k + i) % 2 * 2) := by
  intro ns
  induction ns with
  | nil => intro k i _ h; simp at h
  | cons m rest ih =>
    intro k i hnd h
    cases i with
    | zero =>
      rw [List.getElem?_cons_zero] at h
      obtain rfl : m = n := by injection h
      simp [posEntriesFrom, posLookup]
    | succ j =>
      rw [List.getElem?_cons_succ] at h
      have hmem : n ∈ rest := List.getElem?_mem h
      have hne : n ≠ m := by
        rintro rfl
        exact (List.nodup_cons.mp hnd).1 hmem
      have hrec := ih (k + 1) j (List.nodup_cons.mp hnd).2 h
      rw [show k + 1 + j = k + (j + 1) by omega] at hrec
      simpa [posEntriesFrom, posLookup, hne] using hrec

theorem lineEdge_not_rel {order : List PyStr} {path : PyStr}
    (h : isRelationLine path = false) : lineEdge order path = .ok none := by
  simp [lineEdge, h]

theorem lineEdge_valueError {order : List PyStr} {path : PyStr}
    (hrel : isRelationLine path = true) (hlen : (pySplit '~' path).length ≠ 2) :
    lineEdge order path = .error .valueError := by
  cases h : pySplit '~' path with
  | nil => simp [lineEdge, hrel, h]
  | cons a t =>
    cases t with
    | nil => simp [lineEdge, hrel, h]
    | cons b t2 =>
      cases t2 with
      | nil => exact absurd (by rw [h]; rfl) hlen
      | cons c t3 => simp [lineEdge, hrel, h]

theorem strip_endpoints_mem_nodeItems {text line s e : PyStr}
    (hmem : line ∈ modelLines text) (hrel : isRelationLine line = true)
    (hsplit : pySplit '~' line = [s, e]) :
    pyStrip s ∈ nodeItems text ∧ pyStrip e ∈ nodeItems text := by
  have h := lineNodes_of_split hsplit
  constructor
  · exact mem_nodeItems_of_mem_lineNodes hmem hrel
      (by rw [h]; exact List.mem_cons_self _ _)
  · exact mem_nodeItems_of_mem_lineNodes hmem hrel (by rw [h]; simp)

theorem lineEdge_isOk {order : List PyStr} {text line : PyStr}
    (horder : order.Perm (nodeList text))
    (hmem : line ∈ modelLines text) (hrel : isRelationLine line = true)
    {s e : PyStr} (hsplit : pySplit '~' line = [s, e]) :
    ∃ ps pe, lineEdge order line = .ok (some (ps, pe)) := by
  obtain ⟨h1, h2⟩ := strip_endpoints_mem_nodeItems hmem hrel hsplit
  have m1 : pyStrip s ∈ order := horder.mem_iff.mpr (List.mem_dedup.mpr h1)
  have m2 : pyStrip e ∈ order := horder.mem_iff.mpr (List.mem_dedup.mpr h2)
  obtain ⟨ps, hps⟩ := Option.isSome_iff_exists.mp (posLookup_isSome_of_mem _ order 0 m1)
  obtain ⟨pe, hpe⟩ := Option.isSome_iff_exists.mp (posLookup_isSome_of_mem _ order 0 m2)
  refine ⟨ps, pe, ?_⟩
  simp [lineEdge, hrel, hsplit, posEntries] at hps hpe ⊢
  simp [hps, hpe]

theorem lineEdge_ne_keyError {order : List PyStr} {text line : PyStr}
    (horder : order.Perm (nodeList text)) (hmem : line ∈ modelLines text) :
    lineEdge order line ≠ .error .keyError := by
  by_cases hrel : isRelationLine line = true
  · cases h : pySplit '~' line with
    | nil => simp [lineEdge, hrel, h]
    | cons a t =>
      cases t with
      | nil => simp [lineEdge, hrel, h]
      | cons b t2 =>
        cases t2 with
        | nil =>
          obtain ⟨ps, pe, hok⟩ := lineEdge_isOk horder hmem hrel h
          rw [hok]
          simp
        | cons c t3 => simp [lineEdge, hrel, h]
  · rw [lineEdge_not_rel (eq_false_of_not_true hrel)]
    simp

theorem count_one_of_mem_nodup {l : List PyStr} {a : PyStr}
    (hnd : l.Nodup) (h : a ∈ l) : l.count a = 1 := by
  induction l with
  | nil => cases h
  | cons b t ih =>
    rcases List.mem_cons.mp h with rfl | hm
    · rw [List.count_cons_self,
        List.count_eq_zero_of_not_mem (List.nodup_cons.mp hnd).1]
    · have hne : a ≠ b := by
        rintro rfl
        exact (List.nodup_cons.mp hnd).1 hm
      rw [List.count_cons_of_ne hne]
      exact ih (List.nodup_cons.mp hnd).2 hm

theorem buildEdgesAux_ok (order : List PyStr) :
    ∀ ls : List PyStr, (∀ p ∈ ls, ∃ q, lineEdge order p = .ok q) →
      ∀ ex ey, ∃ v, buildEdgesAux order ls ex ey = .ok v := by
  intro ls
  induction ls with
  | nil => intro _ ex ey; exact ⟨(ex, ey), rfl⟩
  | cons p rest ih =>
    intro h ex ey
    obtain ⟨q, hq⟩ := h p (List.mem_cons_self p rest)
    have hr := fun r hr => h r (List.mem_cons_of_mem p hr)
    cases q with
    | none =>
      obtain ⟨v, hv⟩ := ih hr ex ey
      exact ⟨v, by simp [buildEdgesAux, hq, hv]⟩
    | some pp =>
      obtain ⟨ps, pe⟩ := pp
      obtain ⟨v, hv⟩ := ih hr (ex ++ [some ps.1, some pe.1, none])
        (ey ++ [some ps.2, some pe.2, none])
      exact ⟨v, by simp [buildEdgesAux, hq, hv]⟩

theorem buildEdgesAux_valueError (order : List PyStr) :
    ∀ ls : List PyStr, (∀ p ∈ ls, lineEdge order p ≠ .error .keyError) →
      (∃ p ∈ ls, lineEdge order p = .error .valueError) →
      ∀ ex ey, buildEdgesAux order ls ex ey = .error .valueError := by
  intro ls
  induction ls with
  | nil =>
    rintro _ ⟨p, hp, _⟩ ex ey
    cases hp
  | cons p rest ih =>
    rintro hkey ⟨b, hb, hberr⟩ ex ey
    cases hq : lineEdge order p with
    | error err =>
      cases err with
      | valueError => simp [buildEdgesAux, hq]
      | keyError => exact absurd hq (hkey p (List.mem_cons_self p rest))
    | ok q =>
      have hbrest : b ∈ rest := by
        rcases List.mem_cons.mp hb with rfl | hr
        · rw [hq] at hberr; simp at hberr
        · exact hr
      have hrec := ih (fun r hr => hkey r (List.mem_cons_of_mem p hr)) ⟨b, hbrest, hberr⟩
      cases q with
      | none => simpa [buildEdgesAux, hq] using hrec ex ey
      | some pp =>
        obtain ⟨ps, pe⟩ := pp
        simpa [buildEdgesAux, hq] using
          hrec (ex ++ [some ps.1, some pe.1, none]) (ey ++ [some ps.2, some pe.2, none])

theorem buildEdgesAux_no_rel (order : List PyStr) :
    ∀ ls : List PyStr, (∀ p ∈ ls, isRelationLine p = false) →
      ∀ ex ey, buildEdgesAux order ls ex ey = .ok (ex, ey) := by
  intro ls
  induction ls with
  | nil => intro _ ex ey; rfl
  | cons p rest ih =>
    intro h ex ey
    have hp : lineEdge order p = .ok none :=
      lineEdge_not_rel (h p (List.mem_cons_self p rest))
    simpa [buildEdgesAux, hp] using ih (fun r hr => h r (List.mem_cons_of_mem p hr)) ex ey

theorem edgePairsAux_no_rel :
    ∀ ls : List PyStr, (∀ p ∈ ls, isRelationLine p = false) →
      edgePairsAux ls = some [] := by
  intro ls
  induction ls with
  | nil => intro _; rfl
  | cons p rest ih =>
    intro h
    have hp : isRelationLine p = false := h p (List.mem_cons_self p rest)
    simpa [edgePairsAux, hp] using ih (fun r hr => h r (List.mem_cons_of_mem p hr))

theorem edgePairsAux_eq :
    ∀ ls : List PyStr,
      (∀ p ∈ ls, isRelationLine p = true → (pySplit '~' p).length = 2) →
      edgePairsAux ls = some ((ls.filter isRelationLine).map linePairRaw) := by
  intro ls
  induction ls with
  | nil => intro _; rfl
  | cons p rest ih =>
    intro h
    have hrest := fun r hr => h r (List.mem_cons_of_mem p hr)
    by_cases hp : isRelationLine p = true
    · obtain ⟨s, e, hse⟩ := exists_pair_of_length_two (h p (List.mem_cons_self p rest) hp)
      have hlp : linePairRaw p = (pyStrip s, pyStrip e) := by
        simp [linePairRaw, partL, partR, hse]
      simp [edgePairsAux, hp, hse, ih hrest, List.filter_cons, hlp]
    · have hp' := eq_false_of_not_true hp
      simp [edgePairsAux, hp', List.filter_cons, ih hrest]

theorem lookupAll_isSome (entries : List (PyStr × (Nat × Nat))) :
    ∀ ns : List PyStr, (∀ n ∈ ns, (posLookup entries n).isSome = true) →
      ∃ ps, lookupAll entries ns = some ps := by
  intro ns
  induction ns with
  | nil => intro _; exact ⟨[], rfl⟩
  | cons n rest ih =>
    intro h
    obtain ⟨p, hp⟩ := Option.isSome_iff_exists.mp (h n (List.mem_cons_self n rest))
    obtain ⟨ps, hps⟩ := ih (fun r hr => h r (List.mem_cons_of_mem n hr))
    exact ⟨p :: ps, by simp [lookupAll, hp, hps]⟩

theorem lineEdge_all_ok {order : List PyStr} {text : PyStr}
    (horder : order.Perm (nodeList text))
    (hall : ∀ p ∈ modelLines text, isRelationLine p = true →
      (pySplit '~' p).length = 2) :
    ∀ p ∈ modelLines text, ∃ q, lineEdge order p = .ok q := by
  intro p hp
  by_cases hrel : isRelationLine p = true
  · obtain ⟨s, e, hse⟩ := exists_pair_of_length_two (hall p hp hrel)
    obtain ⟨ps, pe, h⟩ := lineEdge_isOk horder hp hrel hse
    exact ⟨some (ps, pe), h⟩
  · exact ⟨none, lineEdge_not_rel (eq_false_of_not_true hrel)⟩

theorem create_path_diagram_ok (m : SemModel) (order : List PyStr) (text : PyStr)
    (horder : order.Perm (nodeList text))
    (hall : ∀ p ∈ modelLines text, isRelationLine p = true →
      (pySplit '~' p).length = 2) :
    ∃ d, create_path_diagram m order text = .ok d ∧ d.nodes = order := by
  obtain ⟨v, hv⟩ := buildEdgesAux_ok order (modelLines text) (lineEdge_all_ok horder hall) [] []
  have hnodes : ∀ n ∈ order, (posLookup (posEntries order) n).isSome = true :=
    fun n hn => posLookup_isSome_of_mem n order 0 hn
  obtain ⟨ps, hps⟩ := lookupAll_isSome (posEntries order) order hnodes
  obtain ⟨ex, ey⟩ := v
  exact ⟨⟨order, ps.map Prod.fst, ps.map Prod.snd, ex, ey⟩,
    by simp [create_path_diagram, buildEdges, hv, hps], rfl⟩

theorem buildEdges_ok_iff (order : List PyStr) (text : PyStr)
    (horder : order.Perm (nodeList text)) :
    (∃ v, buildEdges order text = .ok v) ↔
      (∀ p ∈ modelLines text, isRelationLine p = true →
        (pySplit '~' p).length = 2) := by
  constructor
  · intro hok
    by_contra hbad
    push_neg at hbad
    obtain ⟨p, hp, hrel, hlen⟩ := hbad
    have herr := buildEdgesAux_valueError order (modelLines text)
      (fun r hr => lineEdge_ne_keyError horder hr)
      ⟨p, hp, lineEdge_valueError hrel hlen⟩ [] []
    obtain ⟨v, hv⟩ := hok
    simp [buildEdges] at hv
    rw [herr] at hv
    simp at hv
  · intro hall
    exact buildEdgesAux_ok order (modelLines text) (lineEdge_all_ok horder hall) [] []

/-- C1 (counterexample): on the spec's own example input "X =~ Y" the code
splits at the character '~', so the left node keeps the '=' of the "=~"
marker: the nodes are "X =" and "Y", "X" is not a node, and the single edge
is ("X =", "Y"), not the claimed ("X", "Y"). -/
theorem c1_counterexample :
    nodeList (pyStr "X =~ Y") = [pyStr "X =", pyStr "Y"] ∧
    pyStr "X" ∉ nodeList (pyStr "X =~ Y") ∧
    edgePairs (pyStr "X =~ Y") = some [(pyStr "X =", pyStr "Y")] ∧
    (pyStr "X", pyStr "Y") ∉ [(pyStr "X =", pyStr "Y")] :=
  ⟨by decide, by decide, by rfl, by decide⟩

/-- C1 (amended): for every line of the specification text that splits at the
character '~' into exactly two parts l and r (the decomposition the code
actually performs; for an "=~" line the left part ends in " ="), the node
set contains the trimmed l and the trimmed r; and when every relation line
splits into exactly two parts, the edge list is exactly the trimmed
(left, right) pairs of the relation lines in source-line order, so it
contains (trim l, trim r). -/
theorem c1_amended (text line l r : PyStr)
    (hmem : line ∈ modelLines text)
    (hrel : isRelationLine line = true)
    (hsplit : pySplit '~' line = [l, r])
    (hall : ∀ p ∈ modelLines text, isRelationLine p = true →
      (pySplit '~' p).length = 2) :
    pyStrip l ∈ nodeList text ∧ pyStrip r ∈ nodeList text ∧
    edgePairs text =
      some (((modelLines text).filter isRelationLine).map linePairRaw) ∧
    (pyStrip l, pyStrip r) ∈
      ((modelLines text).filter isRelationLine).map linePairRaw := by
  have hln := lineNodes_of_split hsplit
  have hlp : linePairRaw line = (pyStrip l, pyStrip r) := by
    simp [linePairRaw, partL, partR, hsplit]
  refine ⟨?_, ?_, edgePairsAux_eq (modelLines text) hall, ?_⟩
  · exact mem_nodeList.mpr (mem_nodeItems_of_mem_lineNodes hmem hrel
      (by rw [hln]; exact List.mem_cons_self _ _))
  · exact mem_nodeList.mpr (mem_nodeItems_of_mem_lineNodes hmem hrel
      (by rw [hln]; simp))
  · rw [← hlp]
    exact List.mem_map_of_mem linePairRaw (List.mem_filter.mpr ⟨hmem, hrel⟩)

/-- C1 witness: the amended statement instantiated at the input "X =~ Y". -/
theorem c1_witness :
    pyStrip (pyStr "X =") ∈ nodeList (pyStr "X =~ Y") ∧
    pyStrip (pyStr " Y") ∈ nodeList (pyStr "X =~ Y") ∧
    edgePairs (pyStr "X =~ Y") =
      some (((modelLines (pyStr "X =~ Y")).filter isRelationLine).map linePairRaw) ∧
    (pyStrip (pyStr "X ="), pyStrip (pyStr " Y")) ∈
      ((modelLines (pyStr "X =~ Y")).filter isRelationLine).map linePairRaw :=
  c1_amended (pyStr "X =~ Y") (pyStr "X =~ Y") (pyStr "X =") (pyStr " Y")
    (by decide) (by decide) (by decide) (by decide)

/-- C2 (counterexample): the default model_desc's first measurement line
names DIDS_6 on its right-hand side, yet "DIDS_6" is not in the node list:
the whole right-hand side is one composite node, and the left part of an
"=~" line keeps a trailing " =", so neither the indicators nor the latent
name "EiB" appear as nodes, although the node list is non-empty. -/
theorem c2_counterexample :
    nodeList model_desc ≠ [] ∧
    pyStr "    EiB =~ DIDS_6 + DIDS_7 + DIDS_8 + DIDS_9 + DIDS_10" ∈
      modelLines model_desc ∧
    isRelationLine
      (pyStr "    EiB =~ DIDS_6 + DIDS_7 + DIDS_8 + DIDS_9 + DIDS_10") = true ∧
    pyStr "DIDS_6" ∉ nodeList model_desc ∧
    pyStr "EiB" ∉ nodeList model_desc :=
  ⟨by decide, by decide, by decide, by decide, by decide⟩

/-- C2 (amended): running the diagram builder on the program's own default
model_desc produces a non-empty node list, namely the fourteen strings
below: for every relation line, the trimmed text left of the '~' and the
trimmed text right of the '~' as whole node names.  This falls short of the
claimed coverage: the individual DIDS_* and HEMA_* indicators are not nodes
(they sit inside composite right-hand-side nodes), and on the "=~" lines the
latent names appear only with a trailing " =" (such as "EiB ="); the one
bare latent name is "Eud", the left part of the structural "~" line. -/
theorem c2_amended :
    nodeList model_desc =
      [pyStr "EiB =", pyStr "DIDS_6 + DIDS_7 + DIDS_8 + DIDS_9 + DIDS_10",
       pyStr "RE  =", pyStr "DIDS_11 + DIDS_12 + DIDS_13 + DIDS_14 + DIDS_15",
       pyStr "IwC =", pyStr "DIDS_16 + DIDS_17 + DIDS_18 + DIDS_19 + DIDS_20",
       pyStr "EiD =", pyStr "DIDS_21 + DIDS_22 + DIDS_23 + DIDS_24 + DIDS_25",
       pyStr "CM  =", pyStr "DIDS_1 + DIDS_2 + DIDS_3 + DIDS_4 + DIDS_5",
       pyStr "Eud =", pyStr "HEMA_2 + HEMA_3 + HEMA_5 + HEMA_8 + HEMA_10",
       pyStr "Eud", pyStr "EiB + RE + IwC + EiD + CM"] ∧
    nodeList model_desc ≠ [] ∧
    (∀ line ∈ modelLines model_desc, isRelationLine line = true →
      partL line ∈ nodeList model_desc ∧ partR line ∈ nodeList model_desc) :=
  ⟨by decide, by decide, by decide⟩

/-- C3 (counterexample): on the input "A ~", whose relation line has an empty
right-hand side, the diagram builder does not raise: it returns a complete
diagram in which the empty string is a node placed at (2, 2) and the edge
runs from "A" to "". -/
theorem c3_counterexample :
    create_path_diagram ⟨true⟩ (nodeList (pyStr "A ~")) (pyStr "A ~") =
      Except.ok ⟨[pyStr "A", pyStr ""], [0, 2], [0, 2],
        [some 0, some 2, none], [some 0, some 2, none]⟩ := by rfl

/-- C3 (amended): a relation line with an empty right-hand side does not make
the diagram builder fail: for any set iteration order on input "A ~" it
succeeds, the empty string is one of the nodes, and the edge list is
[("A", "")]. -/
theorem c3_amended (m : SemModel) (order : List PyStr)
    (horder : order.Perm (nodeList (pyStr "A ~"))) :
    (∃ d, create_path_diagram m order (pyStr "A ~") = .ok d ∧ d.nodes = order) ∧
    pyStr "" ∈ order ∧
    edgePairs (pyStr "A ~") = some [(pyStr "A", pyStr "")] := by
  refine ⟨create_path_diagram_ok m order _ horder (by decide), ?_, by rfl⟩
  exact horder.mem_iff.mpr (by decide)

/-- C3 witness: the amended statement instantiated at the canonical order. -/
theorem c3_witness :
    (∃ d, create_path_diagram ⟨true⟩ (nodeList (pyStr "A ~")) (pyStr "A ~") =
      .ok d ∧ d.nodes = nodeList (pyStr "A ~")) ∧
    pyStr "" ∈ nodeList (pyStr "A ~") ∧
    edgePairs (pyStr "A ~") = some [(pyStr "A", pyStr "")] :=
  c3_amended ⟨true⟩ (nodeList (pyStr "A ~")) (List.Perm.refl _)

/-- C4: every relation line is split at '~' and both parts are trimmed, and
whenever some line contains the marker more than once the split has more
than two parts, so the tuple unpacking of the edge loop raises ValueError:
the edge-building step fails with that error. -/
theorem c4_multi_marker_fails (order : List PyStr) (text line : PyStr)
    (horder : order.Perm (nodeList text))
    (hmem : line ∈ modelLines text)
    (hrel : isRelationLine line = true)
    (hmulti : 2 < (pySplit '~' line).length) :
    buildEdges order text = .error .valueError ∧
    ∀ p s e, pySplit '~' p = [s, e] → lineNodes p = [pyStrip s, pyStrip e] := by
  constructor
  · exact buildEdgesAux_valueError order (modelLines text)
      (fun r hr => lineEdge_ne_keyError horder hr)
      ⟨line, hmem, lineEdge_valueError hrel (by omega)⟩ [] []
  · exact fun p s e h => lineNodes_of_split h

/-- C4 witness: the input "A ~~ B", whose only line contains '~' twice. -/
theorem c4_witness :
    buildEdges (nodeList (pyStr "A ~~ B")) (pyStr "A ~~ B") =
      .error .valueError ∧
    ∀ p s e, pySplit '~' p = [s, e] → lineNodes p = [pyStrip s, pyStrip e] :=
  c4_multi_marker_fails (nodeList (pyStr "A ~~ B")) (pyStr "A ~~ B")
    (pyStr "A ~~ B") (List.Perm.refl _) (by decide) (by decide) (by decide)

/-- C5: node names are deduplicated by exact string equality after trimming:
a name occurring among the collected left/right items occurs exactly once in
the node list, whatever iteration order the set yields, and the node list
has no duplicate names. -/
theorem c5_dedup (text name : PyStr) (order : List PyStr)
    (horder : order.Perm (nodeList text)) (hname : name ∈ nodeItems text) :
    order.count name = 1 ∧ order.Nodup := by
  have hnd : (nodeList text).Nodup := List.nodup_dedup (nodeItems text)
  have hmemd : name ∈ nodeList text := List.mem_dedup.mpr hname
  refine ⟨?_, horder.nodup_iff.mpr hnd⟩
  have hperm : order.count name = (nodeList text).count name :=
    horder.countP_eq (fun x => x == name)
  rw [hperm]
  exact count_one_of_mem_nodup hnd hmemd

/-- C5 witness: "B" appears as right-hand term of both lines of
"A ~ B\nC ~ B" and is a single node of the result. -/
theorem c5_witness :
    (nodeList (pyStr "A ~ B\nC ~ B")).count (pyStr "B") = 1 ∧
    (nodeList (pyStr "A ~ B\nC ~ B")).Nodup :=
  c5_dedup (pyStr "A ~ B\nC ~ B") (pyStr "B") (nodeList (pyStr "A ~ B\nC ~ B"))
    (List.Perm.refl _) (by decide)

/-- C6: iterating any duplicate-free node order, the node at 0-based index i
is assigned position (2*i, 2*(i mod 2)) — a pure function of the iteration
index alone. -/
theorem c6_position_rule (order : List PyStr) (i : Nat) (node : PyStr)
    (hnd : order.Nodup) (hi : order[i]? = some node) :
    posLookup (posEntries order) node = some (2 * i, 2 * (i % 2)) := by
  have h := posLookup_posEntriesFrom node order 0 i hnd hi
  rw [Nat.zero_add] at h
  show posLookup (posEntriesFrom 0 order) node = some (2 * i, 2 * (i % 2))
  rw [h, Nat.mul_comm i 2, Nat.mul_comm (i % 2) 2]

/-- C6 witness: the node at index 2 of a three-node order receives
position (4, 0). -/
theorem c6_witness :
    posLookup (posEntries [pyStr "a", pyStr "b", pyStr "c"]) (pyStr "c") =
      some (2 * 2, 2 * (2 % 2)) :=
  c6_position_rule [pyStr "a", pyStr "b", pyStr "c"] 2 (pyStr "c")
    (by decide) (by decide)

/-- C7: a line without the marker contributes no nodes and no edges: with no
relation line at all, the collected items, the node list and the edge pair
list are empty and the edge loop returns empty coordinate lists. -/
theorem c7_no_relation_lines (text : PyStr) (order : List PyStr)
    (h : ∀ line ∈ modelLines text, isRelationLine line = false) :
    nodeItems text = [] ∧ nodeList text = [] ∧ edgePairs text = some [] ∧
    buildEdges order text = .ok ([], []) := by
  have hfil : (modelLines text).filter isRelationLine = [] := by
    rw [List.filter_eq_nil_iff]
    intro a ha
    simp [h a ha]
  refine ⟨?_, ?_, edgePairsAux_no_rel (modelLines text) h,
    buildEdgesAux_no_rel order (modelLines text) h [] []⟩
  · simp [nodeItems, hfil]
  · simp [nodeList, nodeItems, hfil]

/-- C7 witness: a text of comments and blank lines only. -/
theorem c7_witness :
    nodeItems (pyStr "# only a comment\n\nno marker here") = [] ∧
    nodeList (pyStr "# only a comment\n\nno marker here") = [] ∧
    edgePairs (pyStr "# only a comment\n\nno marker here") = some [] ∧
    buildEdges [] (pyStr "# only a comment\n\nno marker here") = .ok ([], []) :=
  c7_no_relation_lines (pyStr "# only a comment\n\nno marker here") []
    (by decide)

/-- C8: the right-hand side of a relation line is one node name with no
further splitting: a line splitting as [l, r] contributes exactly the nodes
trim l and trim r, and concretely "A ~ B + C" yields the nodes "A" and
"B + C" (neither "B" nor "C") and the single edge ("A", "B + C"). -/
theorem c8_rhs_single_node (text line l r : PyStr)
    (hmem : line ∈ modelLines text) (hrel : isRelationLine line = true)
    (hsplit : pySplit '~' line = [l, r]) :
    lineNodes line = [pyStrip l, pyStrip r] ∧ pyStrip r ∈ nodeList text ∧
    nodeList (pyStr "A ~ B + C") = [pyStr "A", pyStr "B + C"] ∧
    pyStr "B" ∉ nodeList (pyStr "A ~ B + C") ∧
    pyStr "C" ∉ nodeList (pyStr "A ~ B + C") ∧
    edgePairs (pyStr "A ~ B + C") = some [(pyStr "A", pyStr "B + C")] := by
  refine ⟨lineNodes_of_split hsplit, ?_, by decide, by decide, by decide, by rfl⟩
  exact mem_nodeList.mpr (mem_nodeItems_of_mem_lineNodes hmem hrel
    (by rw [lineNodes_of_split hsplit]; simp))

/-- C8 witness: the statement instantiated at the input "A ~ B + C". -/
theorem c8_witness :
    lineNodes (pyStr "A ~ B + C") = [pyStrip (pyStr "A "), pyStrip (pyStr " B + C")] ∧
    pyStrip (pyStr " B + C") ∈ nodeList (pyStr "A ~ B + C") ∧
    nodeList (pyStr "A ~ B + C") = [pyStr "A", pyStr "B + C"] ∧
    pyStr "B" ∉ nodeList (pyStr "A ~ B + C") ∧
    pyStr "C" ∉ nodeList (pyStr "A ~ B + C") ∧
    edgePairs (pyStr "A ~ B + C") = some [(pyStr "A", pyStr "B + C")] :=
  c8_rhs_single_node (pyStr "A ~ B + C") (pyStr "A ~ B + C") (pyStr "A ")
    (pyStr " B + C") (by decide) (by decide) (by decide)

/-- C9: when every line containing '~' contains it exactly once (its split
has exactly two parts), every trimmed endpoint of every relation line is a
key of the position map built from any set order of the nodes, and the edge
loop completes without any error: the pos[start]/pos[end] failure branch is
unreachable under this precondition. -/
theorem c9_lookups_total (order : List PyStr) (text : PyStr)
    (horder : order.Perm (nodeList text))
    (hall : ∀ line ∈ modelLines text, isRelationLine line = true →
      (pySplit '~' line).length = 2) :
    (∃ v, buildEdges order text = .ok v) ∧
    ∀ line s e, line ∈ modelLines text → isRelationLine line = true →
      pySplit '~' line = [s, e] →
      (posLookup (posEntries order) (pyStrip s)).isSome = true ∧
      (posLookup (posEntries order) (pyStrip e)).isSome = true := by
  refine ⟨(buildEdges_ok_iff order text horder).mpr hall, ?_⟩
  intro line s e hmem hrel hsplit
  obtain ⟨h1, h2⟩ := strip_endpoints_mem_nodeItems hmem hrel hsplit
  exact ⟨posLookup_isSome_of_mem _ order 0
      (horder.mem_iff.mpr (List.mem_dedup.mpr h1)),
    posLookup_isSome_of_mem _ order 0
      (horder.mem_iff.mpr (List.mem_dedup.mpr h2))⟩

/-- C9 witness: the two-line text "A ~ B\nC ~ A" with the canonical order. -/
theorem c9_witness :
    (∃ v, buildEdges (nodeList (pyStr "A ~ B\nC ~ A")) (pyStr "A ~ B\nC ~ A") =
      .ok v) ∧
    ∀ line s e, line ∈ modelLines (pyStr "A ~ B\nC ~ A") →
      isRelationLine line = true → pySplit '~' line = [s, e] →
      (posLookup (posEntries (nodeList (pyStr "A ~ B\nC ~ A")))
        (pyStrip s)).isSome = true ∧
      (posLookup (posEntries (nodeList (pyStr "A ~ B\nC ~ A")))
        (pyStrip e)).isSome = true :=
  c9_lookups_total (nodeList (pyStr "A ~ B\nC ~ A")) (pyStr "A ~ B\nC ~ A")
    (List.Perm.refl _) (by decide)

/-- C10 (counterexample): two runs on the same text "A ~ B" that differ only
in the iteration order of the node set — both orders are permutations of
that set, as CPython's per-process string-hash randomization permits —
produce different node lists, positions and edge coordinate lists, so the
concrete output is not a function of the specification text alone. -/
theorem c10_counterexample :
    ([pyStr "A", pyStr "B"]).Perm (nodeList (pyStr "A ~ B")) ∧
    ([pyStr "B", pyStr "A"]).Perm (nodeList (pyStr "A ~ B")) ∧
    create_path_diagram ⟨true⟩ [pyStr "A", pyStr "B"] (pyStr "A ~ B") =
      Except.ok ⟨[pyStr "A", pyStr "B"], [0, 2], [0, 2],
        [some 0, some 2, none], [some 0, some 2, none]⟩ ∧
    create_path_diagram ⟨true⟩ [pyStr "B", pyStr "A"] (pyStr "A ~ B") =
      Except.ok ⟨[pyStr "B", pyStr "A"], [0, 2], [0, 2],
        [some 2, some 0, none], [some 2, some 0, none]⟩ ∧
    ([some 0, some 2, none] : List (Option Nat)) ≠ [some 2, some 0, none] :=
  ⟨by decide, by decide, by rfl, by rfl, by decide⟩

/-- C10 (amended): the computation never reads the model argument and has no
other state: it is a function of the specification text and the set
iteration order only; for a fixed order it is deterministic, and node
membership is independent of the order, but by the counterexample the
concrete positions and edge coordinates do change with the order. -/
theorem c10_amended (m₁ m₂ : SemModel) (order : List PyStr) (text : PyStr) :
    create_path_diagram m₁ order text = create_path_diagram m₂ order text ∧
    ∀ order₁ order₂ : List PyStr, order₁.Perm (nodeList text) →
      order₂.Perm (nodeList text) → ∀ name, (name ∈ order₁ ↔ name ∈ order₂) :=
  ⟨rfl, fun _ _ h₁ h₂ _ => (h₁.mem_iff).trans (h₂.mem_iff).symm⟩


end SemApp
